import Mathlib

/-!
# Verification of the soylana backend cross-token wallet cross-checker

Shallow embedding of the cross-checker code paths of the soylana backend:

* `backend/app/api/routes.py`, endpoint `cross_check_wallets` (POST /api/cross-checker):
  input validation, per-token holder collection with offset pagination, the
  set intersection over all per-token holder sets, per-wallet holding records
  with decimal adjustment, and the average-rank ordering of the result.
* `backend/app/clients/solscan.py`: `get_token_transfers` (query parameter
  construction, including the time-range filters) and `get_all_token_traders`
  (page-number pagination, burn-address filtering, trader set accumulation).

External HTTP providers are modelled as environments (`HolderScanEnv`,
`SolscanEnv`): functions from request arguments to an `Except`-value, where
`.error` models a raised client exception (`HolderScanError` / `SolscanError`
or any other exception escaping the call) and `.ok` a decoded response.
Network I/O is made observable through an explicit trace of fetch events
returned alongside each result.  Python floats are embedded as `ℚ`, Python
ints as `ℤ`/`ℕ`, `None`-able values as `Option`.  Python dicts keyed by
strings are embedded as insertion-ordered association lists with distinct
keys (`dictInsert` updates in place like a Python dict).  Python sets are
embedded as duplicate-free lists; Python set iteration order is unspecified,
and the embedding fixes first-insertion order, which only influences the
relative order of equal sort keys in the final (stable) sort — an order the
code leaves unspecified as well.
-/

namespace Soylana

/-! ## Data model (backend/app/models) -/

/-- Token basic information (`models/token.py`, class `Token`) — only the
fields the cross-checker reads (`name`, `symbol`, `decimals`). -/
structure Token where
  name : Option String
  symbol : Option String
  decimals : Option Int
deriving DecidableEq

/-- Individual token holder (`models/holder.py`, class `Holder`) — only the
fields the cross-checker reads (`address`, `amount`, `rank`). -/
structure Holder where
  address : String
  amount : Option ℚ
  rank : Option Int
deriving DecidableEq

/-- The per-holder dict `{"amount": holder.amount or 0, "rank": holder.rank or 0}`
built at routes.py lines 368-371. -/
structure HolderData where
  amount : ℚ
  rank : Int
deriving DecidableEq

/-- The per-token dict built at routes.py lines 385-390. -/
structure TokenData where
  name : String
  decimals : Int
  holders : List (String × HolderData)
  total_holders_fetched : Nat
deriving DecidableEq

/-- One network fetch issued by the cross-checker to the HolderScan provider:
either a token-info request (`client.get_token`) or a holder-page request
(`client.get_holders` with its `limit` and `offset` arguments). -/
inductive FetchEvent where
  | tokenInfo (address : String)
  | holders (address : String) (limit : Nat) (offset : Nat)
deriving DecidableEq

/-- The HolderScan provider as seen by the cross-checker: `get_token` and
`get_holders token limit offset`.  An `.error` value models a raised
exception (the code catches all exceptions at both call sites). -/
structure HolderScanEnv where
  getToken : String → Except String Token
  getHolders : String → Nat → Nat → Except String (List Holder)

/-- Python `a or b` on strings restricted to string/`None` operands: `None`
and the empty string are falsy (used for `token_info.name or token_info.symbol
or token_address[:8]` at routes.py line 344). -/
def pyStrOr (a : Option String) (b : String) : String :=
  match a with
  | some s => if s = "" then b else s
  | none => b

/-- Python dict assignment `m[k] = v`: update in place when the key exists
(keeping its original position, as Python dicts do), append otherwise. -/
def dictInsert (m : List (String × HolderData)) (k : String) (v : HolderData) :
    List (String × HolderData) :=
  if m.any (fun p => decide (p.1 = k)) then
    m.map (fun p => if p.1 = k then (k, v) else p)
  else m ++ [(k, v)]

/-- Python `m.get(k)` on the embedded dict. -/
def dictGet (m : List (String × HolderData)) (k : String) : Option HolderData :=
  (m.find? (fun p => decide (p.1 = k))).map Prod.snd

/-! ## Holder collection (routes.py lines 351-381)

The `while offset < max_holders_per_token` pagination loop.  `batch_size`
is the local constant 100.  The loop body fetches one page; a raised
exception is caught and breaks the loop (lines 379-381); an empty page
breaks (lines 364-365); each returned holder overwrites any prior entry
for the same address (lines 367-371); a page shorter than the batch size
breaks after being consumed (lines 375-377).  The second component of the
result is the trace of holder-page fetches issued. -/

/-- One holder page folded into the accumulated dict (routes.py 367-371). -/
def foldPage (acc : List (String × HolderData)) (page : List Holder) :
    List (String × HolderData) :=
  page.foldl (fun m h => dictInsert m h.address ⟨h.amount.getD 0, h.rank.getD 0⟩) acc

/-- The holder pagination loop of routes.py lines 356-381. -/
def fetchHoldersLoop (env : HolderScanEnv) (tokenAddress : String)
    (maxHoldersPerToken : Nat) (offset : Nat) (allHolders : List (String × HolderData)) :
    List (String × HolderData) × List FetchEvent :=
  if _h : offset < maxHoldersPerToken then
    match env.getHolders tokenAddress 100 offset with
    | .error _ => (allHolders, [.holders tokenAddress 100 offset])
    | .ok page =>
      if page = [] then (allHolders, [.holders tokenAddress 100 offset])
      else
        let acc := foldPage allHolders page
        if page.length < 100 then (acc, [.holders tokenAddress 100 offset])
        else
          let r := fetchHoldersLoop env tokenAddress maxHoldersPerToken (offset + 100) acc
          (r.1, .holders tokenAddress 100 offset :: r.2)
  else (allHolders, [])
  termination_by maxHoldersPerToken - offset

/-- Per-token collection (routes.py lines 338-392): best-effort token info
(lines 342-349, any failure falls back to the shortened address and
decimals 0), then the holder pagination loop, then the per-token dict. -/
def collectTokenData (env : HolderScanEnv) (tokenAddress : String)
    (maxHoldersPerToken : Nat) : TokenData × List FetchEvent :=
  let nameDec : String × Int :=
    match env.getToken tokenAddress with
    | .ok info =>
        (pyStrOr info.name (pyStrOr info.symbol (tokenAddress.take 8)), info.decimals.getD 0)
    | .error _ => (tokenAddress.take 8, 0)
  let fetched := fetchHoldersLoop env tokenAddress maxHoldersPerToken 0 []
  (⟨nameDec.1, nameDec.2, fetched.1, fetched.1.length⟩,
   FetchEvent.tokenInfo tokenAddress :: fetched.2)

/-- The sequential `for token_address in token_addresses` collection loop
(routes.py lines 338-392), producing the `token_data` dict as an ordered
association list (its keys are the deduplicated addresses, in order) and
the concatenated fetch trace. -/
def collectAllTokens (env : HolderScanEnv) : List String → Nat →
    List (String × TokenData) × List FetchEvent
  | [], _ => ([], [])
  | a :: rest, maxH =>
    ((a, (collectTokenData env a maxH).1) :: (collectAllTokens env rest maxH).1,
     (collectTokenData env a maxH).2 ++ (collectAllTokens env rest maxH).2)

/-- `list(dict.fromkeys(token_addresses))` (routes.py line 326): remove
duplicates keeping the first occurrence of each address, preserving order. -/
def dedupKeepFirst : List String → List String
  | [] => []
  | a :: rest => a :: dedupKeepFirst (rest.filter (fun b => decide (b ≠ a)))
  termination_by l => l.length
  decreasing_by
    simp only [List.length_cons]
    exact Nat.lt_succ_of_le (List.length_filter_le _ _)

/-! ## Intersection and result assembly (routes.py lines 394-463) -/

/-- Per-token holding record of a common wallet (routes.py lines 423-428). -/
structure Holding where
  token_name : String
  raw_amount : ℚ
  adjusted_amount : ℚ
  rank : Int
deriving DecidableEq

/-- One entry of the `common_wallets` result list (routes.py lines 430-434). -/
structure ResultWallet where
  wallet_address : String
  holdings : List (String × Holding)
  tokens_held : Nat
deriving DecidableEq

/-- Build the holding record of one wallet for one token
(routes.py lines 415-428): `holder_info = data["holders"].get(wallet_address, {})`,
`amount = holder_info.get("amount", 0)`, decimal adjustment
`adjusted_amount = amount / (10 ** decimals) if decimals > 0 else amount`. -/
def buildHolding (data : TokenData) (walletAddress : String) : Holding :=
  let holderInfo := dictGet data.holders walletAddress
  let amount : ℚ := match holderInfo with | some h => h.amount | none => 0
  let rank : Int := match holderInfo with | some h => h.rank | none => 0
  { token_name := data.name
    raw_amount := amount
    adjusted_amount := if 0 < data.decimals then amount / (10 : ℚ) ^ data.decimals else amount
    rank := rank }

/-- Build one `result_wallets` entry (routes.py lines 411-434); the wallet's
holdings enumerate `token_data.items()` in insertion order. -/
def buildResultWallet (tokenData : List (String × TokenData)) (walletAddress : String) :
    ResultWallet :=
  let holdings := tokenData.map (fun p => (p.1, buildHolding p.2 walletAddress))
  ⟨walletAddress, holdings, holdings.length⟩

/-- The sort key of routes.py lines 437-439: the mean of the wallet's
per-token ranks greater than zero; `float("inf")` — embedded as `⊤` in
`WithTop ℚ` — when no rank is positive. -/
def avg_rank (wallet : ResultWallet) : WithTop ℚ :=
  let ranks := (wallet.holdings.map (fun p => p.2.rank)).filter (fun r => decide (0 < r))
  if ranks = [] then ⊤
  else (((ranks.map (fun r => (r : ℚ))).sum / (ranks.length : ℚ) : ℚ) : WithTop ℚ)

/-- The comparison used by `result_wallets.sort(key=avg_rank)`: ascending
by `avg_rank`. -/
def rankSortLe (a b : ResultWallet) : Bool :=
  decide (avg_rank a ≤ avg_rank b)

/-- The fold `common_wallets = all_holder_sets[0]; for s in all_holder_sets[1:]:
common_wallets = common_wallets.intersection(s)` (routes.py lines 402-404),
on sets embedded as duplicate-free lists: the members of the first per-token
set that belong to every remaining set. -/
def intersectionList (s0 : List String) (rest : List (List String)) : List String :=
  s0.filter (fun w => rest.all (fun s => decide (w ∈ s)))

/-- One entry of the `tokens` summary (routes.py lines 444-452). -/
structure TokenSummary where
  address : String
  name : String
  decimals : Int
  holders_fetched : Nat
deriving DecidableEq

/-- The `query` echo of the response (routes.py lines 458-462). -/
structure QueryEcho where
  token_count : Nat
  max_holders_per_token : Nat
  min_usd_value : Option ℚ
deriving DecidableEq

/-- The cross-checker response (routes.py lines 454-463). -/
structure CCResponse where
  common_wallets : List ResultWallet
  tokens : List TokenSummary
  total_common : Nat
  query : QueryEcho
deriving DecidableEq

/-- Outcome of the cross-checker body: the degenerate early return of
routes.py lines 395-400 (`if not all_holder_sets`, an empty result without
a `query` echo — unreachable once validation has passed) or the full
response. -/
inductive CCResult where
  | emptyHolderSets
  | response (r : CCResponse)
deriving DecidableEq

/-- An `HTTPException`: its status code and detail message. -/
structure ApiError where
  status_code : Nat
  detail : String
deriving DecidableEq

/-- Assembly of the full response from the collected `token_data`
(routes.py lines 402-463).  `tokenData` is the collected per-token data,
keyed by the deduplicated addresses `addrs` in order — the code's
`for addr in token_addresses: token_data[addr]` summary loop therefore
enumerates exactly the entries of `tokenData` in order.  `s0 :: rest` are
the per-token holder key sets (`all_holder_sets`). -/
def assembleResponse (tokenData : List (String × TokenData)) (addrs : List String)
    (s0 : List String) (rest : List (List String)) (min_usd_value : Option ℚ)
    (max_holders_per_token : Nat) : CCResponse :=
  let common_wallets := intersectionList s0 rest
  let result_wallets := (common_wallets.map (buildResultWallet tokenData)).mergeSort rankSortLe
  { common_wallets := result_wallets
    tokens := tokenData.map (fun p => ⟨p.1, p.2.name, p.2.decimals, p.2.total_holders_fetched⟩)
    total_common := result_wallets.length
    query := ⟨addrs.length, max_holders_per_token, min_usd_value⟩ }

/-- The cross-checker body after validation and deduplication
(routes.py lines 330-463), on the deduplicated address list. -/
def crossCheckCore (env : HolderScanEnv) (addrs : List String) (min_usd_value : Option ℚ)
    (max_holders_per_token : Nat) : CCResult × List FetchEvent :=
  match (collectAllTokens env addrs max_holders_per_token).1.map
      (fun p => p.2.holders.map Prod.fst) with
  | [] => (.emptyHolderSets, (collectAllTokens env addrs max_holders_per_token).2)
  | s0 :: rest =>
    (.response (assembleResponse (collectAllTokens env addrs max_holders_per_token).1 addrs
        s0 rest min_usd_value max_holders_per_token),
     (collectAllTokens env addrs max_holders_per_token).2)

/-- The POST /api/cross-checker endpoint (routes.py lines 299-472):
validate the raw input list length (before deduplication), deduplicate
preserving first occurrences, then run the collection/intersection body.
The trace records every provider fetch issued. -/
def cross_check_wallets (env : HolderScanEnv) (token_addresses : List String)
    (min_usd_value : Option ℚ) (max_holders_per_token : Nat) :
    Except ApiError CCResult × List FetchEvent :=
  if token_addresses.length < 2 then
    (.error ⟨400, "At least 2 token addresses are required"⟩, [])
  else if token_addresses.length > 10 then
    (.error ⟨400, "Maximum 10 tokens allowed per cross-check"⟩, [])
  else
    let addrs := dedupKeepFirst token_addresses
    let core := crossCheckCore env addrs min_usd_value max_holders_per_token
    (.ok core.1, core.2)

/-! ## Solscan client (backend/app/clients/solscan.py) -/

/-- Token transfer record (`solscan.py`, class `TokenTransfer`) — only the
fields the trader collector reads. -/
structure TokenTransfer where
  from_address : Option String
  to_address : Option String
deriving DecidableEq

/-- The system/burn address excluded from trader sets (solscan.py 196-198). -/
def burnAddress : String := "11111111111111111111111111111111"

/-- A value of a query parameter sent to the Solscan API. -/
inductive ParamValue where
  | str (s : String)
  | int (i : Int)
  | nat (n : Nat)
deriving DecidableEq

/-- The query parameter dict built by `get_token_transfers`
(solscan.py lines 136-146), as an ordered association list.  Note the two
time bounds: `params["block_time[]"] = from_time` at line 144 but
`params["block_time[]="] = to_time` at line 146 — the second key carries a
stray trailing equals sign inside the parameter name itself. -/
def get_token_transfers_params (token_address : String) (page : Nat) (page_size : Nat)
    (from_time : Option Int) (to_time : Option Int) (sort_by : String)
    (sort_order : String) : List (String × ParamValue) :=
  [("address", .str token_address), ("page", .nat page),
   ("page_size", .nat (min page_size 100)), ("sort_by", .str sort_by),
   ("sort_order", .str sort_order)]
  ++ (match from_time with | some t => [("block_time[]", .int t)] | none => [])
  ++ (match to_time with | some t => [("block_time[]=", .int t)] | none => [])

/-- The Solscan provider as seen by the trader collector:
`get_token_transfers token page page_size from_time to_time`, returning the
`data` array of transfer records, or `.error` for a raised `SolscanError`. -/
structure SolscanEnv where
  getTokenTransfers : String → Nat → Nat → Option Int → Option Int →
    Except String (List TokenTransfer)

/-- Add one transfer endpoint to the trader set (solscan.py lines 196-199):
the address qualifies when present, truthy (non-empty), and distinct from
the burn address.  The Python set is embedded as a duplicate-free list in
insertion order. -/
def addTrader (traders : List String) (addr : Option String) : List String :=
  match addr with
  | some a =>
      if a ≠ "" ∧ a ≠ burnAddress then
        if a ∈ traders then traders else traders ++ [a]
      else traders
  | none => traders

/-- The trader pagination loop of solscan.py lines 177-211: pages 1, 2, …
up to `max_pages`; a raised `SolscanError` breaks (lines 209-211); an empty
`data` array breaks (lines 188-189); both endpoints of every transfer are
added (lines 191-199); a page of fewer than 100 transfers breaks after
being consumed (lines 202-203).  The second component is the trace of page
numbers fetched. -/
def tradersLoop (env : SolscanEnv) (tokenAddress : String) (fromTime toTime : Option Int)
    (maxPages : Nat) (page : Nat) (traders : List String) : List String × List Nat :=
  if _h : page ≤ maxPages then
    match env.getTokenTransfers tokenAddress page 100 fromTime toTime with
    | .error _ => (traders, [page])
    | .ok transfers =>
      if transfers = [] then (traders, [page])
      else
        let traders' := transfers.foldl
          (fun acc t => addTrader (addTrader acc t.from_address) t.to_address) traders
        if transfers.length < 100 then (traders', [page])
        else
          let r := tradersLoop env tokenAddress fromTime toTime maxPages (page + 1) traders'
          (r.1, page :: r.2)
  else (traders, [])
  termination_by maxPages + 1 - page

/-- `get_all_token_traders` (solscan.py lines 155-214): run the pagination
loop from page 1 with an empty trader set. -/
def get_all_token_traders (env : SolscanEnv) (tokenAddress : String)
    (fromTime toTime : Option Int) (maxPages : Nat) : List String × List Nat :=
  tradersLoop env tokenAddress fromTime toTime maxPages 1 []

/-! ## Auxiliary definitions used by the theorem statements -/

/-- A holder-page fetch outcome on which the pagination loop stops: a raised
exception, an empty page, or a page shorter than the batch size of 100. -/
def holderStop (res : Except String (List Holder)) : Prop :=
  (∃ e, res = .error e) ∨ res = .ok [] ∨ ∃ p, res = .ok p ∧ p.length < 100

/-- Replace the `min_usd_value` echo of a response (used to state that the
input `min_usd_value` influences nothing else). -/
def CCResponse.withMinUsd (r : CCResponse) (mu : Option ℚ) : CCResponse :=
  { r with query := { r.query with min_usd_value := mu } }

/-- `CCResponse.withMinUsd` lifted to `CCResult`. -/
def CCResult.withMinUsd : CCResult → Option ℚ → CCResult
  | .emptyHolderSets, _ => .emptyHolderSets
  | .response r, mu => .response (r.withMinUsd mu)

/-! ## Concrete providers used to instantiate the theorems -/

/-- A concrete HolderScan provider: two tokens with two shared holders.
`walletX` holds rank 5 in `tokA` and rank 10 in `tokB` (mean 7.5);
`walletY` holds rank 100 in `tokA` and rank 200 in `tokB` (mean 150). -/
def envW : HolderScanEnv where
  getToken := fun a => .ok ⟨some (a ++ " name"), none, some 6⟩
  getHolders := fun a _limit off =>
    if off = 0 then
      if a = "tokA" then
        .ok [⟨"walletX", some 2500000, some 5⟩, ⟨"walletY", some 100, some 100⟩]
      else
        .ok [⟨"walletX", some 50, some 10⟩, ⟨"walletY", some 7, some 200⟩]
    else .ok []

/-- A concrete HolderScan provider on which every call raises an upstream
error. -/
def envErr : HolderScanEnv where
  getToken := fun _ => .error "API request failed: 500"
  getHolders := fun _ _ _ => .error "API request failed: 500"

/-- A full transfer page of 100 records. -/
def transferPageFull : List TokenTransfer :=
  List.replicate 100 ⟨some "alice", some "bob"⟩

/-- A Solscan provider on which every transfer page is full. -/
def envSolFull : SolscanEnv where
  getTokenTransfers := fun _ _ _ _ _ => .ok transferPageFull

/-- A Solscan provider with two full pages and a short third page. -/
def envSolShort3 : SolscanEnv where
  getTokenTransfers := fun _ p _ _ _ =>
    if p ≤ 2 then .ok transferPageFull
    else .ok [⟨some "carol", some "dave"⟩]

/-- A Solscan provider whose single (short) page mentions the burn address
as both a sender and a receiver. -/
def envSolBurn : SolscanEnv where
  getTokenTransfers := fun _ p _ _ _ =>
    if p = 1 then .ok [⟨some "alice", some burnAddress⟩, ⟨some burnAddress, some "bob"⟩]
    else .ok []

/-- A concrete per-token record with 6 decimals and a holder of raw amount
2500000, instantiating the fractional-decimals example of the spec. -/
def exampleTokenData : TokenData :=
  ⟨"Example", 6, [("walletX", ⟨2500000, 1⟩)], 1⟩

/-! ## Helper lemmas -/

theorem keys_dictInsert (m : List (String × HolderData)) (k : String) (v : HolderData) :
    (dictInsert m k v).map Prod.fst =
      if m.any (fun p => decide (p.1 = k)) then m.map Prod.fst
      else m.map Prod.fst ++ [k] := by
  unfold dictInsert
  split
  · rw [List.map_map]
    apply List.map_congr_left
    intro p _
    simp only [Function.comp_apply]
    split
    · rename_i h
      exact h.symm
    · rfl
  · simp

theorem nodup_keys_dictInsert (m : List (String × HolderData)) (k : String) (v : HolderData)
    (h : (m.map Prod.fst).Nodup) : ((dictInsert m k v).map Prod.fst).Nodup := by
  rw [keys_dictInsert]
  split
  · exact h
  · rename_i hany
    have hk : k ∉ m.map Prod.fst := by
      simp only [List.any_eq_true, decide_eq_true_eq] at hany
      simp only [List.mem_map, not_exists]
      rintro p ⟨hp, hpk⟩
      exact hany ⟨p, hp, hpk⟩
    simp [List.nodup_append, h, hk]

theorem nodup_keys_foldPage (page : List Holder) :
    ∀ m : List (String × HolderData), (m.map Prod.fst).Nodup →
      ((foldPage m page).map Prod.fst).Nodup := by
  induction page with
  | nil => intro m h; simpa [foldPage] using h
  | cons hd tl ih =>
      intro m h
      have : foldPage m (hd :: tl) =
          foldPage (dictInsert m hd.address ⟨hd.amount.getD 0, hd.rank.getD 0⟩) tl := by
        simp [foldPage]
      rw [this]
      exact ih _ (nodup_keys_dictInsert _ _ _ h)

theorem nodup_keys_fetchHoldersLoop (env : HolderScanEnv) (t : String) (maxH : Nat) :
    ∀ (offset : Nat) (acc : List (String × HolderData)), (acc.map Prod.fst).Nodup →
      (((fetchHoldersLoop env t maxH offset acc).1).map Prod.fst).Nodup := by
  intro offset acc
  induction offset, acc using fetchHoldersLoop.induct env t maxH with
  | case1 offset acc hlt e hf =>
      intro h
      rw [fetchHoldersLoop]
      simp only [hf, dif_pos hlt]
      exact h
  | case2 offset acc hlt hf =>
      intro h
      rw [fetchHoldersLoop]
      simp only [hf, dif_pos hlt, if_pos rfl]
      exact h
  | case3 offset acc hlt page hf hne hshort =>
      intro h
      rw [fetchHoldersLoop]
      simp only [hf, dif_pos hlt, if_neg hne, if_pos hshort]
      exact nodup_keys_foldPage page acc h
  | case4 offset acc hlt page hf hne acc' hshort ih =>
      intro h
      rw [fetchHoldersLoop]
      simp only [hf, dif_pos hlt, if_neg hne, if_neg hshort]
      exact ih (nodup_keys_foldPage page acc h)
  | case5 offset acc hge =>
      intro h
      rw [fetchHoldersLoop]
      simp only [dif_neg hge]
      exact h

theorem collectTokenData_holders (env : HolderScanEnv) (a : String) (maxH : Nat) :
    (collectTokenData env a maxH).1.holders = (fetchHoldersLoop env a maxH 0 []).1 := rfl

theorem nodup_keys_collectTokenData (env : HolderScanEnv) (a : String) (maxH : Nat) :
    ((collectTokenData env a maxH).1.holders.map Prod.fst).Nodup := by
  rw [collectTokenData_holders]
  exact nodup_keys_fetchHoldersLoop env a maxH 0 [] (by simp)

theorem dedupKeepFirst_cons (a : String) (rest : List String) :
    dedupKeepFirst (a :: rest) = a :: dedupKeepFirst (rest.filter (fun b => decide (b ≠ a))) := by
  rw [dedupKeepFirst]

theorem dedupKeepFirst_replicate (a : String) (n : Nat) (hn : 1 ≤ n) :
    dedupKeepFirst (List.replicate n a) = [a] := by
  match n, hn with
  | n + 1, _ =>
      rw [List.replicate_succ, dedupKeepFirst_cons]
      have : (List.replicate n a).filter (fun b => decide (b ≠ a)) = [] := by
        rw [List.filter_eq_nil_iff]
        intro b hb
        simp [List.eq_of_mem_replicate hb]
      rw [this, dedupKeepFirst]

theorem crossCheckCore_cons (env : HolderScanEnv) (a : String) (as : List String)
    (mu : Option ℚ) (maxH : Nat) :
    crossCheckCore env (a :: as) mu maxH =
      (.response (assembleResponse (collectAllTokens env (a :: as) maxH).1 (a :: as)
          ((collectTokenData env a maxH).1.holders.map Prod.fst)
          ((collectAllTokens env as maxH).1.map (fun p => p.2.holders.map Prod.fst))
          mu maxH),
        (collectAllTokens env (a :: as) maxH).2) := by
  simp only [crossCheckCore, collectAllTokens, List.map_cons]

theorem cross_check_wallets_valid_eq (env : HolderScanEnv) (input : List String)
    (mu : Option ℚ) (maxH : Nat) (h2 : 2 ≤ input.length) (h10 : input.length ≤ 10) :
    ∃ a as, dedupKeepFirst input = a :: as ∧
      cross_check_wallets env input mu maxH =
        (.ok (.response (assembleResponse (collectAllTokens env (a :: as) maxH).1 (a :: as)
            ((collectTokenData env a maxH).1.holders.map Prod.fst)
            ((collectAllTokens env as maxH).1.map (fun p => p.2.holders.map Prod.fst))
            mu maxH)),
          (collectAllTokens env (a :: as) maxH).2) := by
  obtain ⟨a, as, hd⟩ : ∃ a as, dedupKeepFirst input = a :: as := by
    cases hi : input with
    | nil => rw [hi] at h2; simp at h2
    | cons x xs => exact ⟨x, _, by rw [dedupKeepFirst]⟩
  refine ⟨a, as, hd, ?_⟩
  simp only [cross_check_wallets]
  rw [if_neg (by omega), if_neg (by omega), hd, crossCheckCore_cons]

theorem mem_intersectionList (s0 : List String) (rest : List (List String)) (w : String) :
    w ∈ intersectionList s0 rest ↔ w ∈ s0 ∧ ∀ s ∈ rest, w ∈ s := by
  simp [intersectionList, List.mem_filter, List.all_eq_true]

theorem nodup_intersectionList (s0 : List String) (rest : List (List String))
    (h : s0.Nodup) : (intersectionList s0 rest).Nodup :=
  h.filter _

theorem intersectionList_rest_nil (s0 : List String) : intersectionList s0 [] = s0 := by
  simp [intersectionList]

theorem buildResultWallet_address (tokenData : List (String × TokenData)) (w : String) :
    (buildResultWallet tokenData w).wallet_address = w := rfl

theorem assembleResponse_common_wallets (tokenData : List (String × TokenData))
    (addrs s0 : List String) (rest : List (List String)) (mu : Option ℚ) (maxH : Nat) :
    (assembleResponse tokenData addrs s0 rest mu maxH).common_wallets =
      ((intersectionList s0 rest).map (buildResultWallet tokenData)).mergeSort rankSortLe := rfl

theorem assembleResponse_total_common (tokenData : List (String × TokenData))
    (addrs s0 : List String) (rest : List (List String)) (mu : Option ℚ) (maxH : Nat) :
    (assembleResponse tokenData addrs s0 rest mu maxH).total_common =
      (assembleResponse tokenData addrs s0 rest mu maxH).common_wallets.length := rfl

theorem assembleResponse_addresses_perm (tokenData : List (String × TokenData))
    (addrs s0 : List String) (rest : List (List String)) (mu : Option ℚ) (maxH : Nat) :
    ((assembleResponse tokenData addrs s0 rest mu maxH).common_wallets.map
      (fun w => w.wallet_address)).Perm (intersectionList s0 rest) := by
  rw [assembleResponse_common_wallets]
  have h1 := List.mergeSort_perm ((intersectionList s0 rest).map (buildResultWallet tokenData))
    rankSortLe
  have h2 := h1.map (fun w => w.wallet_address)
  rw [List.map_map] at h2
  have h3 : (intersectionList s0 rest).map
      ((fun (w : ResultWallet) => w.wallet_address) ∘ buildResultWallet tokenData) =
      intersectionList s0 rest := List.map_id _
  rw [h3] at h2
  exact h2

theorem rankSortLe_trans (a b c : ResultWallet) (hab : rankSortLe a b = true)
    (hbc : rankSortLe b c = true) : rankSortLe a c = true := by
  simp only [rankSortLe, decide_eq_true_eq] at *
  exact le_trans hab hbc

theorem rankSortLe_total (a b : ResultWallet) : (rankSortLe a b || rankSortLe b a) = true := by
  simp only [rankSortLe, ← Bool.decide_or, decide_eq_true_eq]
  exact le_total _ _

theorem assembleResponse_sorted (tokenData : List (String × TokenData))
    (addrs s0 : List String) (rest : List (List String)) (mu : Option ℚ) (maxH : Nat) :
    (assembleResponse tokenData addrs s0 rest mu maxH).common_wallets.Pairwise
      (fun x y => avg_rank x ≤ avg_rank y) := by
  rw [assembleResponse_common_wallets]
  have h := @List.sorted_mergeSort ResultWallet rankSortLe rankSortLe_trans rankSortLe_total
    ((intersectionList s0 rest).map (buildResultWallet tokenData))
  exact h.imp (by simp [rankSortLe])

theorem crossCheckCore_withMinUsd (env : HolderScanEnv) (addrs : List String)
    (mu1 mu2 : Option ℚ) (maxH : Nat) :
    crossCheckCore env addrs mu1 maxH =
      ((crossCheckCore env addrs mu2 maxH).1.withMinUsd mu1,
       (crossCheckCore env addrs mu2 maxH).2) := by
  unfold crossCheckCore
  cases h : (collectAllTokens env addrs maxH).1.map (fun p => p.2.holders.map Prod.fst) with
  | nil => rfl
  | cons s0 rest => rfl

theorem cross_check_valid_isOk (env : HolderScanEnv) (input : List String)
    (mu : Option ℚ) (maxH : Nat) (h2 : 2 ≤ input.length) (h10 : input.length ≤ 10) :
    ∃ r, (cross_check_wallets env input mu maxH).1 = .ok r := by
  obtain ⟨a, as, _, heq⟩ := cross_check_wallets_valid_eq env input mu maxH h2 h10
  exact ⟨_, by rw [heq]⟩

/-! ## Claim C2 -/

/-- C2: an input whose raw token list has fewer than 2 or more than 10
entries fails with a status-400 validation error, and the fetch trace is
empty: no provider fetch of any kind is issued before the failure. -/
theorem invalid_length_validation_error_no_fetch (env : HolderScanEnv)
    (input : List String) (mu : Option ℚ) (maxH : Nat)
    (h : input.length < 2 ∨ input.length > 10) :
    ∃ e : ApiError, cross_check_wallets env input mu maxH = (.error e, []) ∧
      e.status_code = 400 := by
  rcases h with h | h
  · exact ⟨⟨400, "At least 2 token addresses are required"⟩, by
      simp only [cross_check_wallets, if_pos h], rfl⟩
  · refine ⟨⟨400, "Maximum 10 tokens allowed per cross-check"⟩, ?_, rfl⟩
    simp only [cross_check_wallets, if_neg (show ¬input.length < 2 by omega), if_pos h]

/-- C2 witness: a concrete one-token input is rejected with a 400 error and
an empty fetch trace. -/
theorem invalid_length_validation_error_no_fetch_witness :
    ∃ e : ApiError, cross_check_wallets envW ["tokA"] none 1000 = (.error e, []) ∧
      e.status_code = 400 :=
  invalid_length_validation_error_no_fetch envW ["tokA"] none 1000 (Or.inl (by decide))

/-! ## Claim C9 -/

/-- C9: the `min_usd_value` input has no effect on the computed result: two
invocations differing only in `min_usd_value` return the same outcome and
the same fetch trace up to replacing the `min_usd_value` echo inside the
`query` field, and the assembled response echoes the input `min_usd_value`
verbatim in that field. -/
theorem min_usd_value_has_no_effect (env : HolderScanEnv) (input : List String)
    (maxH : Nat) (mu1 mu2 : Option ℚ) :
    (cross_check_wallets env input mu1 maxH =
      ((cross_check_wallets env input mu2 maxH).1.map (fun r => r.withMinUsd mu1),
       (cross_check_wallets env input mu2 maxH).2)) ∧
    (∀ tokenData addrs s0 rest maxHq,
      (assembleResponse tokenData addrs s0 rest mu1 maxHq).query.min_usd_value = mu1) := by
  constructor
  · by_cases hA : input.length < 2
    · simp [cross_check_wallets, if_pos hA, Except.map]
    · by_cases hB : input.length > 10
      · simp [cross_check_wallets, if_neg hA, if_pos hB, Except.map]
      · simp only [cross_check_wallets, if_neg hA, if_neg hB]
        rw [crossCheckCore_withMinUsd env (dedupKeepFirst input) mu1 mu2 maxH]
        simp [Except.map]
  · intro tokenData addrs s0 rest maxHq
    rfl

/-! ## Claim C1 -/

/-- C1: for every valid input, the cross-checker returns a response whose
`common_wallets` address list is duplicate-free, whose membership is exactly
"present in the holder collection of every (deduplicated) token", and whose
`total_common` is the length of that duplicate-free address list — i.e. the
returned address set is the intersection of the per-token holder sets and
`total_common` is its cardinality. -/
theorem result_is_exact_intersection (env : HolderScanEnv) (input : List String)
    (mu : Option ℚ) (maxH : Nat) (h2 : 2 ≤ input.length) (h10 : input.length ≤ 10) :
    ∃ r : CCResponse, (cross_check_wallets env input mu maxH).1 = .ok (.response r) ∧
      (∀ w, w ∈ r.common_wallets.map (fun x => x.wallet_address) ↔
        ∀ td ∈ (collectAllTokens env (dedupKeepFirst input) maxH).1,
          w ∈ td.2.holders.map Prod.fst) ∧
      (r.common_wallets.map (fun x => x.wallet_address)).Nodup ∧
      r.total_common = (r.common_wallets.map (fun x => x.wallet_address)).length := by
  obtain ⟨a, as, hd, heq⟩ := cross_check_wallets_valid_eq env input mu maxH h2 h10
  refine ⟨_, by rw [heq], ?_, ?_, ?_⟩
  · intro w
    rw [(assembleResponse_addresses_perm _ _ _ _ _ _).mem_iff, mem_intersectionList, hd]
    simp only [collectAllTokens, List.forall_mem_cons, List.forall_mem_map]
  · exact (assembleResponse_addresses_perm _ _ _ _ _ _).nodup_iff.mpr
      (nodup_intersectionList _ _ (nodup_keys_collectTokenData env a maxH))
  · rw [List.length_map]
    rfl

/-- C1 witness: on a concrete two-token provider the returned response
satisfies the intersection characterization. -/
theorem result_is_exact_intersection_witness :
    ∃ r : CCResponse, (cross_check_wallets envW ["tokA", "tokB"] none 1000).1 =
        .ok (.response r) ∧
      (∀ w, w ∈ r.common_wallets.map (fun x => x.wallet_address) ↔
        ∀ td ∈ (collectAllTokens envW (dedupKeepFirst ["tokA", "tokB"]) 1000).1,
          w ∈ td.2.holders.map Prod.fst) ∧
      (r.common_wallets.map (fun x => x.wallet_address)).Nodup ∧
      r.total_common = (r.common_wallets.map (fun x => x.wallet_address)).length :=
  result_is_exact_intersection envW ["tokA", "tokB"] none 1000 (by decide) (by decide)

theorem mem_common_wallets (tokenData : List (String × TokenData)) (addrs s0 : List String)
    (rest : List (List String)) (mu : Option ℚ) (maxH : Nat) (w : ResultWallet) :
    w ∈ (assembleResponse tokenData addrs s0 rest mu maxH).common_wallets ↔
      ∃ x ∈ intersectionList s0 rest, w = buildResultWallet tokenData x := by
  rw [assembleResponse_common_wallets, (List.mergeSort_perm _ _).mem_iff]
  simp only [List.mem_map]
  constructor
  · rintro ⟨x, hx, rfl⟩
    exact ⟨x, hx, rfl⟩
  · rintro ⟨x, hx, rfl⟩
    exact ⟨x, hx, rfl⟩

theorem buildHolding_adjusted_amount (d : TokenData) (w : String) :
    (buildHolding d w).adjusted_amount =
      if 0 < d.decimals then (buildHolding d w).raw_amount / (10 : ℚ) ^ d.decimals
      else (buildHolding d w).raw_amount := rfl

theorem collectTokenData_trace (env : HolderScanEnv) (a : String) (maxH : Nat) :
    (collectTokenData env a maxH).2 =
      FetchEvent.tokenInfo a :: (fetchHoldersLoop env a maxH 0 []).2 := rfl

theorem index_lt_of_avg_rank_lt {l : List ResultWallet}
    (h : l.Pairwise (fun x y => avg_rank x ≤ avg_rank y)) (i j : Fin l.length)
    (hlt : avg_rank (l.get i) < avg_rank (l.get j)) : i < j := by
  rcases lt_trichotomy i j with h1 | h1 | h1
  · exact h1
  · rw [h1] at hlt
    exact absurd hlt (lt_irrefl _)
  · exact absurd (List.pairwise_iff_get.mp h j i h1) (not_le_of_lt hlt)

/-! ## Claim C4 -/

/-- C4: every common wallet's holdings enumerate the collected per-token
records via `buildHolding`, and each such record satisfies
`adjusted_amount = raw_amount / 10 ^ decimals` when the token's decimals is
positive and `adjusted_amount = raw_amount` when it is zero; concretely,
decimals 6 with raw amount 2500000 adjusts to 5/2 = 2.5. -/
theorem holding_decimal_adjustment (env : HolderScanEnv) (input : List String)
    (mu : Option ℚ) (maxH : Nat) (h2 : 2 ≤ input.length) (h10 : input.length ≤ 10) :
    (∃ r : CCResponse, (cross_check_wallets env input mu maxH).1 = .ok (.response r) ∧
      ∀ w ∈ r.common_wallets,
        w.holdings = (collectAllTokens env (dedupKeepFirst input) maxH).1.map
          (fun p => (p.1, buildHolding p.2 w.wallet_address)) ∧
        ∀ td ∈ (collectAllTokens env (dedupKeepFirst input) maxH).1,
          (0 < td.2.decimals →
            (buildHolding td.2 w.wallet_address).adjusted_amount =
              (buildHolding td.2 w.wallet_address).raw_amount / (10 : ℚ) ^ td.2.decimals) ∧
          (td.2.decimals = 0 →
            (buildHolding td.2 w.wallet_address).adjusted_amount =
              (buildHolding td.2 w.wallet_address).raw_amount)) ∧
    (buildHolding exampleTokenData "walletX").raw_amount = 2500000 ∧
    (buildHolding exampleTokenData "walletX").adjusted_amount = 5 / 2 := by
  refine ⟨?_, ?_, ?_⟩
  · obtain ⟨a, as, hd, heq⟩ := cross_check_wallets_valid_eq env input mu maxH h2 h10
    refine ⟨_, by rw [heq], ?_⟩
    intro w hw
    rw [mem_common_wallets] at hw
    obtain ⟨x, _, rfl⟩ := hw
    rw [hd]
    refine ⟨rfl, ?_⟩
    intro td _
    constructor
    · intro hpos
      rw [buildHolding_adjusted_amount, if_pos hpos]
    · intro hzero
      rw [buildHolding_adjusted_amount, hzero, if_neg (lt_irrefl 0)]
  · rfl
  · show (if 0 < exampleTokenData.decimals then
        (2500000 : ℚ) / (10 : ℚ) ^ exampleTokenData.decimals else 2500000) = 5 / 2
    rw [if_pos (by norm_num [exampleTokenData])]
    norm_num [exampleTokenData]

/-- C4 witness: the decimal-adjustment property instantiated on the
concrete two-token provider. -/
theorem holding_decimal_adjustment_witness :
    (∃ r : CCResponse, (cross_check_wallets envW ["tokA", "tokB"] none 1000).1 =
        .ok (.response r) ∧
      ∀ w ∈ r.common_wallets,
        w.holdings = (collectAllTokens envW (dedupKeepFirst ["tokA", "tokB"]) 1000).1.map
          (fun p => (p.1, buildHolding p.2 w.wallet_address)) ∧
        ∀ td ∈ (collectAllTokens envW (dedupKeepFirst ["tokA", "tokB"]) 1000).1,
          (0 < td.2.decimals →
            (buildHolding td.2 w.wallet_address).adjusted_amount =
              (buildHolding td.2 w.wallet_address).raw_amount / (10 : ℚ) ^ td.2.decimals) ∧
          (td.2.decimals = 0 →
            (buildHolding td.2 w.wallet_address).adjusted_amount =
              (buildHolding td.2 w.wallet_address).raw_amount)) ∧
    (buildHolding exampleTokenData "walletX").raw_amount = 2500000 ∧
    (buildHolding exampleTokenData "walletX").adjusted_amount = 5 / 2 :=
  holding_decimal_adjustment envW ["tokA", "tokB"] none 1000 (by decide) (by decide)

/-! ## Claim C5 -/

/-- C5: the returned `common_wallets` list is sorted ascending by
`avg_rank` — the mean of the wallet's per-token ranks greater than zero,
with the `⊤` sentinel when no rank is positive.  Consequently every wallet
whose `avg_rank` is the sentinel `⊤` comes after every wallet with a finite
key, and a wallet with mean rank 7.5 (ranks 5 and 10) is placed before a
wallet with mean rank 150 (ranks 100 and 200). -/
theorem sorted_by_mean_of_positive_ranks (env : HolderScanEnv) (input : List String)
    (mu : Option ℚ) (maxH : Nat) (h2 : 2 ≤ input.length) (h10 : input.length ≤ 10) :
    ∃ r : CCResponse, (cross_check_wallets env input mu maxH).1 = .ok (.response r) ∧
      r.common_wallets.Pairwise (fun x y => avg_rank x ≤ avg_rank y) ∧
      (∀ i j : Fin r.common_wallets.length,
        avg_rank (r.common_wallets.get i) ≠ ⊤ →
        avg_rank (r.common_wallets.get j) = ⊤ → i < j) ∧
      (∀ i j : Fin r.common_wallets.length,
        avg_rank (r.common_wallets.get i) = ((15 / 2 : ℚ) : WithTop ℚ) →
        avg_rank (r.common_wallets.get j) = ((150 : ℚ) : WithTop ℚ) → i < j) := by
  obtain ⟨a, as, hd, heq⟩ := cross_check_wallets_valid_eq env input mu maxH h2 h10
  refine ⟨_, by rw [heq], assembleResponse_sorted _ _ _ _ _ _, ?_, ?_⟩
  · intro i j hi hj
    apply index_lt_of_avg_rank_lt (assembleResponse_sorted _ _ _ _ _ _) i j
    rw [hj]
    exact lt_top_iff_ne_top.mpr hi
  · intro i j hi hj
    apply index_lt_of_avg_rank_lt (assembleResponse_sorted _ _ _ _ _ _) i j
    rw [hi, hj]
    exact WithTop.coe_lt_coe.mpr (by norm_num)

/-- C5 witness: the ordering property instantiated on the concrete
two-token provider, whose two common wallets have exactly the rank profiles
5/10 and 100/200. -/
theorem sorted_by_mean_of_positive_ranks_witness :
    ∃ r : CCResponse, (cross_check_wallets envW ["tokA", "tokB"] none 1000).1 =
        .ok (.response r) ∧
      r.common_wallets.Pairwise (fun x y => avg_rank x ≤ avg_rank y) ∧
      (∀ i j : Fin r.common_wallets.length,
        avg_rank (r.common_wallets.get i) ≠ ⊤ →
        avg_rank (r.common_wallets.get j) = ⊤ → i < j) ∧
      (∀ i j : Fin r.common_wallets.length,
        avg_rank (r.common_wallets.get i) = ((15 / 2 : ℚ) : WithTop ℚ) →
        avg_rank (r.common_wallets.get j) = ((150 : ℚ) : WithTop ℚ) → i < j) :=
  sorted_by_mean_of_positive_ranks envW ["tokA", "tokB"] none 1000 (by decide) (by decide)

/-! ## Claim C10 -/

/-- C10: length validation applies to the raw input list, so a list of n
copies (2 ≤ n ≤ 10) of one address is accepted; deduplication leaves the
single token, the intersection degenerates to that token's entire fetched
holder collection, and every fetched holder is returned as a common wallet
(`total_common` equals the number of fetched holders). -/
theorem duplicate_addresses_degenerate_to_single_token (env : HolderScanEnv) (a : String)
    (n : Nat) (mu : Option ℚ) (maxH : Nat) (h2 : 2 ≤ n) (h10 : n ≤ 10) :
    ∃ r : CCResponse,
      (cross_check_wallets env (List.replicate n a) mu maxH).1 = .ok (.response r) ∧
      dedupKeepFirst (List.replicate n a) = [a] ∧
      (∀ w, w ∈ r.common_wallets.map (fun x => x.wallet_address) ↔
        w ∈ (collectTokenData env a maxH).1.holders.map Prod.fst) ∧
      r.total_common = (collectTokenData env a maxH).1.holders.length := by
  have hlen : (List.replicate n a).length = n := List.length_replicate n a
  obtain ⟨a', as', hdd, heq⟩ := cross_check_wallets_valid_eq env (List.replicate n a) mu maxH
    (by omega) (by omega)
  have hdr : dedupKeepFirst (List.replicate n a) = [a] :=
    dedupKeepFirst_replicate a n (by omega)
  rw [hdr] at hdd
  obtain ⟨rfl, rfl⟩ : a = a' ∧ [] = as' := by
    cases hdd
    exact ⟨rfl, rfl⟩
  have hrest : (collectAllTokens env ([] : List String) maxH).1.map
      (fun p => p.2.holders.map Prod.fst) = [] := rfl
  refine ⟨_, by rw [heq], hdr, ?_, ?_⟩
  · intro w
    rw [(assembleResponse_addresses_perm _ _ _ _ _ _).mem_iff, hrest,
      intersectionList_rest_nil]
  · rw [assembleResponse_total_common, assembleResponse_common_wallets,
      List.length_mergeSort, List.length_map, hrest, intersectionList_rest_nil,
      List.length_map]

/-- C10 witness: ten copies of one address are accepted and return that
token's full fetched holder collection. -/
theorem duplicate_addresses_degenerate_to_single_token_witness :
    ∃ r : CCResponse,
      (cross_check_wallets envW (List.replicate 10 "tokA") none 1000).1 =
        .ok (.response r) ∧
      dedupKeepFirst (List.replicate 10 "tokA") = ["tokA"] ∧
      (∀ w, w ∈ r.common_wallets.map (fun x => x.wallet_address) ↔
        w ∈ (collectTokenData envW "tokA" 1000).1.holders.map Prod.fst) ∧
      r.total_common = (collectTokenData envW "tokA" 1000).1.holders.length :=
  duplicate_addresses_degenerate_to_single_token envW "tokA" 10 none 1000
    (by decide) (by decide)

/-! ## Claim C3 -/

/-- C3, as stated, is false on the code: the holder pagination loop catches
every exception raised by a holder-page fetch (routes.py lines 379-381).
On a provider whose holder fetch always raises an upstream error, the fetch
at offset 0 for token "a" is issued (it appears in the fetch trace) and
fails, yet the cross-check returns an `.ok` result instead of propagating
the error. -/
theorem holder_fetch_upstream_error_not_propagated_cex :
    envErr.getHolders "a" 100 0 = .error "API request failed: 500" ∧
    FetchEvent.holders "a" 100 0 ∈ (cross_check_wallets envErr ["a", "b"] none 1000).2 ∧
    ∃ r, (cross_check_wallets envErr ["a", "b"] none 1000).1 = .ok r := by
  refine ⟨rfl, ?_, cross_check_valid_isOk envErr ["a", "b"] none 1000 (by decide) (by decide)⟩
  have hfl : ∀ t, fetchHoldersLoop envErr t 1000 0 [] = ([], [.holders t 100 0]) := by
    intro t
    rw [fetchHoldersLoop]
    simp [envErr]
  obtain ⟨a', as', hdd, heq⟩ := cross_check_wallets_valid_eq envErr ["a", "b"] none 1000
    (by decide) (by decide)
  have hdr : dedupKeepFirst ["a", "b"] = ["a", "b"] := by
    rw [dedupKeepFirst_cons]
    simp [dedupKeepFirst]
  rw [hdr] at hdd
  obtain ⟨rfl, rfl⟩ : "a" = a' ∧ ["b"] = as' := by
    cases hdd
    exact ⟨rfl, rfl⟩
  rw [heq]
  simp [collectAllTokens, collectTokenData_trace, hfl]

/-- C3 (amended): an `UpstreamError` raised by a per-token holder-page
fetch does not abort the aggregation and is not propagated: it is caught
inside the pagination loop, which stops at the failing offset keeping the
holders accumulated so far, and every validated cross-check invocation
completes with an `.ok` result. -/
theorem holder_fetch_upstream_error_swallowed :
    (∀ (env : HolderScanEnv) (input : List String) (mu : Option ℚ) (maxH : Nat),
      2 ≤ input.length → input.length ≤ 10 →
      ∃ r, (cross_check_wallets env input mu maxH).1 = .ok r) ∧
    (∀ (env : HolderScanEnv) (t : String) (maxH offset : Nat)
      (acc : List (String × HolderData)) (e : String), offset < maxH →
      env.getHolders t 100 offset = .error e →
      fetchHoldersLoop env t maxH offset acc =
        (acc, [FetchEvent.holders t 100 offset])) := by
  constructor
  · intro env input mu maxH h2 h10
    exact cross_check_valid_isOk env input mu maxH h2 h10
  · intro env t maxH offset acc e hlt hf
    rw [fetchHoldersLoop]
    simp only [dif_pos hlt, hf]

/-- C3 (amended) witness: instantiated on the always-failing provider. -/
theorem holder_fetch_upstream_error_swallowed_witness :
    (∃ r, (cross_check_wallets envErr ["a", "b"] none 1000).1 = .ok r) ∧
    fetchHoldersLoop envErr "a" 1000 0 [] = ([], [FetchEvent.holders "a" 100 0]) :=
  ⟨(holder_fetch_upstream_error_swallowed).1 envErr ["a", "b"] none 1000
      (by decide) (by decide),
   (holder_fetch_upstream_error_swallowed).2 envErr "a" 1000 0 []
      "API request failed: 500" (by decide) rfl⟩

/-! ## Helper lemmas for the pagination traces -/

theorem fetchHoldersLoop_trace_shape (env : HolderScanEnv) (t : String) (maxH : Nat) :
    ∀ (offset : Nat) (acc : List (String × HolderData)),
      ∀ ev ∈ (fetchHoldersLoop env t maxH offset acc).2,
        ∃ o, ev = FetchEvent.holders t 100 o ∧ offset ≤ o ∧ o < maxH ∧
          (o - offset) % 100 = 0 := by
  intro offset acc
  induction offset, acc using fetchHoldersLoop.induct env t maxH with
  | case1 offset acc hlt e hf =>
      intro ev hev
      rw [fetchHoldersLoop] at hev
      simp [dif_pos hlt, hf, List.mem_singleton] at hev
      exact ⟨offset, hev, le_refl _, hlt, by omega⟩
  | case2 offset acc hlt hf =>
      intro ev hev
      rw [fetchHoldersLoop] at hev
      simp [dif_pos hlt, hf, if_pos rfl, List.mem_singleton] at hev
      exact ⟨offset, hev, le_refl _, hlt, by omega⟩
  | case3 offset acc hlt page hf hne hshort =>
      intro ev hev
      rw [fetchHoldersLoop] at hev
      simp [dif_pos hlt, hf, if_neg hne, if_pos hshort, List.mem_singleton] at hev
      exact ⟨offset, hev, le_refl _, hlt, by omega⟩
  | case4 offset acc hlt page hf hne acc' hshort ih =>
      intro ev hev
      rw [fetchHoldersLoop] at hev
      simp [dif_pos hlt, hf, if_neg hne, if_neg hshort, List.mem_cons] at hev
      rcases hev with rfl | hev
      · exact ⟨offset, rfl, le_refl _, hlt, by omega⟩
      · obtain ⟨o, hev, ho1, ho2, ho3⟩ := ih ev hev
        exact ⟨o, hev, by omega, ho2, by omega⟩
  | case5 offset acc hge =>
      intro ev hev
      rw [fetchHoldersLoop] at hev
      simp [dif_neg hge, List.not_mem_nil] at hev

theorem fetchHoldersLoop_no_fetch_past_stop (env : HolderScanEnv) (t : String) (maxH : Nat) :
    ∀ (offset : Nat) (acc : List (String × HolderData)) (o o' : Nat),
      FetchEvent.holders t 100 o ∈ (fetchHoldersLoop env t maxH offset acc).2 →
      holderStop (env.getHolders t 100 o) →
      FetchEvent.holders t 100 o' ∈ (fetchHoldersLoop env t maxH offset acc).2 →
      o' ≤ o := by
  intro offset acc
  induction offset, acc using fetchHoldersLoop.induct env t maxH with
  | case1 offset acc hlt e hf =>
      intro o o' ho hstop ho'
      rw [fetchHoldersLoop] at ho ho'
      simp [dif_pos hlt, hf, List.mem_singleton, FetchEvent.holders.injEq,
        true_and] at ho ho'
      omega
  | case2 offset acc hlt hf =>
      intro o o' ho hstop ho'
      rw [fetchHoldersLoop] at ho ho'
      simp [dif_pos hlt, hf, if_pos rfl, List.mem_singleton, FetchEvent.holders.injEq,
        true_and] at ho ho'
      omega
  | case3 offset acc hlt page hf hne hshort =>
      intro o o' ho hstop ho'
      rw [fetchHoldersLoop] at ho ho'
      simp [dif_pos hlt, hf, if_neg hne, if_pos hshort, List.mem_singleton,
        FetchEvent.holders.injEq, true_and] at ho ho'
      omega
  | case4 offset acc hlt page hf hne acc' hshort ih =>
      intro o o' ho hstop ho'
      rw [fetchHoldersLoop] at ho ho'
      simp [dif_pos hlt, hf, if_neg hne, if_neg hshort, List.mem_cons,
        FetchEvent.holders.injEq, true_and] at ho ho'
      rcases ho with rfl | ho
      · rcases hstop with ⟨e, he⟩ | he | ⟨p, hp, hlen⟩
        · rw [hf] at he
          exact absurd he (by simp)
        · rw [hf] at he
          simp [Except.ok.injEq] at he
          exact absurd he hne
        · rw [hf] at hp
          simp [Except.ok.injEq] at hp
          rw [← hp] at hlen
          exact absurd hlen hshort
      · rcases ho' with hoeq | ho'
        · obtain ⟨oo, hoo, h1, _, _⟩ := fetchHoldersLoop_trace_shape env t maxH (offset + 100)
            (foldPage acc page) _ ho
          rw [FetchEvent.holders.injEq] at hoo
          omega
        · exact ih o o' ho hstop ho'
  | case5 offset acc hge =>
      intro o o' ho hstop ho'
      rw [fetchHoldersLoop] at ho
      simp [dif_neg hge, List.not_mem_nil] at ho

theorem tradersLoop_trace_bounds (env : SolscanEnv) (t : String) (ft tt : Option Int)
    (maxP : Nat) : ∀ (page : Nat) (acc : List String),
      ∀ p ∈ (tradersLoop env t ft tt maxP page acc).2, page ≤ p ∧ p ≤ maxP := by
  intro page acc
  induction page, acc using tradersLoop.induct env t ft tt maxP with
  | case1 page acc hle e hf =>
      intro p hp
      rw [tradersLoop] at hp
      simp [dif_pos hle, hf, List.mem_singleton] at hp
      omega
  | case2 page acc hle hf =>
      intro p hp
      rw [tradersLoop] at hp
      simp [dif_pos hle, hf, if_pos rfl, List.mem_singleton] at hp
      omega
  | case3 page acc hle ts hf hne hshort =>
      intro p hp
      rw [tradersLoop] at hp
      simp [dif_pos hle, hf, if_neg hne, if_pos hshort, List.mem_singleton] at hp
      omega
  | case4 page acc hle ts hf hne traders' hshort ih =>
      intro p hp
      rw [tradersLoop] at hp
      simp [dif_pos hle, hf, if_neg hne, if_neg hshort, List.mem_cons] at hp
      rcases hp with rfl | hp
      · omega
      · obtain ⟨h1, h2⟩ := ih p hp
        exact ⟨by omega, h2⟩
  | case5 page acc hgt =>
      intro p hp
      rw [tradersLoop] at hp
      simp [dif_neg hgt, List.not_mem_nil] at hp

theorem mem_addTrader (acc : List String) (a : Option String) (x : String) :
    x ∈ addTrader acc a ↔ x ∈ acc ∨ (a = some x ∧ x ≠ "" ∧ x ≠ burnAddress) := by
  cases a with
  | none => simp [addTrader]
  | some s =>
    by_cases hc : s ≠ "" ∧ s ≠ burnAddress
    · simp only [addTrader, if_pos hc, Option.some.injEq]
      by_cases hm : s ∈ acc
      · rw [if_pos hm]
        constructor
        · exact Or.inl
        · rintro (h | ⟨rfl, _, _⟩)
          · exact h
          · exact hm
      · rw [if_neg hm, List.mem_append, List.mem_singleton]
        constructor
        · rintro (h | rfl)
          · exact Or.inl h
          · exact Or.inr ⟨rfl, hc.1, hc.2⟩
        · rintro (h | ⟨rfl, _, _⟩)
          · exact Or.inl h
          · exact Or.inr rfl
    · simp only [addTrader, if_neg hc, Option.some.injEq]
      constructor
      · exact Or.inl
      · rintro (h | ⟨rfl, hne, hnb⟩)
        · exact h
        · exact absurd ⟨hne, hnb⟩ hc

theorem mem_foldTransfers (ts : List TokenTransfer) :
    ∀ (acc : List String) (x : String),
      x ∈ ts.foldl (fun acc tr => addTrader (addTrader acc tr.from_address) tr.to_address)
          acc ↔
        x ∈ acc ∨ ∃ tr ∈ ts, (tr.from_address = some x ∨ tr.to_address = some x) ∧
          x ≠ "" ∧ x ≠ burnAddress := by
  induction ts with
  | nil =>
      intro acc x
      simp
  | cons hd tl ih =>
      intro acc x
      rw [List.foldl_cons, ih, mem_addTrader, mem_addTrader]
      constructor
      · rintro (((h | ⟨hf, hne, hnb⟩) | ⟨ht, hne, hnb⟩) | ⟨tr, htr, hcond, hne, hnb⟩)
        · exact Or.inl h
        · exact Or.inr ⟨hd, List.mem_cons_self _ _, Or.inl hf, hne, hnb⟩
        · exact Or.inr ⟨hd, List.mem_cons_self _ _, Or.inr ht, hne, hnb⟩
        · exact Or.inr ⟨tr, List.mem_cons_of_mem _ htr, hcond, hne, hnb⟩
      · rintro (h | ⟨tr, htr, hcond, hne, hnb⟩)
        · exact Or.inl (Or.inl (Or.inl h))
        · rcases List.mem_cons.mp htr with rfl | htl
          · rcases hcond with hf | ht
            · exact Or.inl (Or.inl (Or.inr ⟨hf, hne, hnb⟩))
            · exact Or.inl (Or.inr ⟨ht, hne, hnb⟩)
          · exact Or.inr ⟨tr, htl, hcond, hne, hnb⟩

theorem mem_tradersLoop (env : SolscanEnv) (t : String) (ft tt : Option Int) (maxP : Nat) :
    ∀ (page : Nat) (acc : List String) (x : String),
      x ∈ (tradersLoop env t ft tt maxP page acc).1 ↔
        x ∈ acc ∨ ∃ p ∈ (tradersLoop env t ft tt maxP page acc).2,
          ∃ ts, env.getTokenTransfers t p 100 ft tt = .ok ts ∧
            ∃ tr ∈ ts, (tr.from_address = some x ∨ tr.to_address = some x) ∧
              x ≠ "" ∧ x ≠ burnAddress := by
  intro page acc
  induction page, acc using tradersLoop.induct env t ft tt maxP with
  | case1 page acc hle e hf =>
      intro x
      rw [tradersLoop]
      simp only [dif_pos hle, hf, List.mem_singleton]
      constructor
      · exact Or.inl
      · rintro (h | ⟨p, rfl, ts, hts, _⟩)
        · exact h
        · rw [hf] at hts
          exact absurd hts (by simp)
  | case2 page acc hle hf =>
      intro x
      rw [tradersLoop]
      simp only [dif_pos hle, hf, if_pos rfl, if_true, List.mem_singleton]
      constructor
      · exact Or.inl
      · rintro (h | ⟨p, rfl, ts, hts, tr, htr, _⟩)
        · exact h
        · rw [hf] at hts
          simp only [Except.ok.injEq] at hts
          subst hts
          exact absurd htr (List.not_mem_nil _)
  | case3 page acc hle ts hf hne hshort =>
      intro x
      rw [tradersLoop]
      simp only [dif_pos hle, hf, if_neg hne, if_pos hshort, List.mem_singleton]
      rw [mem_foldTransfers]
      constructor
      · rintro (h | ⟨tr, htr, hcond, hne2, hnb⟩)
        · exact Or.inl h
        · exact Or.inr ⟨page, rfl, ts, hf, tr, htr, hcond, hne2, hnb⟩
      · rintro (h | ⟨p, rfl, ts', hts, tr, htr, hcond, hne2, hnb⟩)
        · exact Or.inl h
        · rw [hf] at hts
          simp [Except.ok.injEq] at hts
          rw [← hts] at htr
          exact Or.inr ⟨tr, htr, hcond, hne2, hnb⟩
  | case4 page acc hle ts hf hne traders' hshort ih =>
      intro x
      rw [tradersLoop]
      simp only [dif_pos hle, hf, if_neg hne, if_neg hshort, List.mem_cons]
      rw [ih]
      have hmem : x ∈ traders' ↔ x ∈ acc ∨ ∃ tr ∈ ts,
          (tr.from_address = some x ∨ tr.to_address = some x) ∧
          x ≠ "" ∧ x ≠ burnAddress := mem_foldTransfers ts acc x
      rw [hmem]
      constructor
      · rintro ((h | ⟨tr, htr, hcond, hne2, hnb⟩) | ⟨p, hp, ts', hts, tr, htr, hcond, hne2, hnb⟩)
        · exact Or.inl h
        · exact Or.inr ⟨page, Or.inl rfl, ts, hf, tr, htr, hcond, hne2, hnb⟩
        · exact Or.inr ⟨p, Or.inr hp, ts', hts, tr, htr, hcond, hne2, hnb⟩
      · rintro (h | ⟨p, hp, ts', hts, tr, htr, hcond, hne2, hnb⟩)
        · exact Or.inl (Or.inl h)
        · rcases hp with rfl | hp
          · rw [hf] at hts
            simp [Except.ok.injEq] at hts
            rw [← hts] at htr
            exact Or.inl (Or.inr ⟨tr, htr, hcond, hne2, hnb⟩)
          · exact Or.inr ⟨p, hp, ts', hts, tr, htr, hcond, hne2, hnb⟩
  | case5 page acc hgt =>
      intro x
      rw [tradersLoop]
      simp only [dif_neg hgt, List.not_mem_nil]
      constructor
      · exact Or.inl
      · rintro (h | ⟨p, hp, _⟩)
        · exact h
        · exact absurd hp (by simp)

/-! ## Claim C6 -/

/-- C6: pagination terminates at the stopping conditions and never fetches
past them.  Holder mode fetches only offsets that are multiples of 100
below the `max_holders_per_token` ceiling, and once a fetched offset hits a
stop condition (error, empty page, or short page) no later offset is
fetched.  Trader mode fetches only pages between 1 and `max_pages`; with
`max_pages = 2` and every page full exactly pages 1 and 2 are fetched, and
with a short third page the run fetches exactly pages 1, 2, 3 and never
page 4. -/
theorem pagination_terminates_at_stop_conditions :
    (∀ (env : HolderScanEnv) (t : String) (maxH : Nat),
      ∀ ev ∈ (fetchHoldersLoop env t maxH 0 []).2,
        ∃ o, ev = FetchEvent.holders t 100 o ∧ o < maxH ∧ o % 100 = 0) ∧
    (∀ (env : HolderScanEnv) (t : String) (maxH o o' : Nat),
      FetchEvent.holders t 100 o ∈ (fetchHoldersLoop env t maxH 0 []).2 →
      holderStop (env.getHolders t 100 o) →
      FetchEvent.holders t 100 o' ∈ (fetchHoldersLoop env t maxH 0 []).2 → o' ≤ o) ∧
    (∀ (env : SolscanEnv) (t : String) (ft tt : Option Int) (maxP : Nat),
      ∀ p ∈ (get_all_token_traders env t ft tt maxP).2, 1 ≤ p ∧ p ≤ maxP) ∧
    (∀ (env : SolscanEnv) (t : String) (ft tt : Option Int),
      (∀ p, ∃ ts, env.getTokenTransfers t p 100 ft tt = .ok ts ∧ ts.length = 100) →
      (get_all_token_traders env t ft tt 2).2 = [1, 2]) ∧
    (∀ (env : SolscanEnv) (t : String) (ft tt : Option Int)
      (ts1 ts2 ts3 : List TokenTransfer),
      env.getTokenTransfers t 1 100 ft tt = .ok ts1 → ts1.length = 100 →
      env.getTokenTransfers t 2 100 ft tt = .ok ts2 → ts2.length = 100 →
      env.getTokenTransfers t 3 100 ft tt = .ok ts3 → ts3 ≠ [] → ts3.length < 100 →
      (get_all_token_traders env t ft tt 50).2 = [1, 2, 3]) := by
  refine ⟨?_, ?_, ?_, ?_, ?_⟩
  · intro env t maxH ev hev
    obtain ⟨o, rfl, h1, h2, h3⟩ := fetchHoldersLoop_trace_shape env t maxH 0 [] ev hev
    exact ⟨o, rfl, h2, by omega⟩
  · intro env t maxH o o' ho hstop ho'
    exact fetchHoldersLoop_no_fetch_past_stop env t maxH 0 [] o o' ho hstop ho'
  · intro env t ft tt maxP p hp
    exact tradersLoop_trace_bounds env t ft tt maxP 1 [] p hp
  · intro env t ft tt hfull
    obtain ⟨ts1, h1, l1⟩ := hfull 1
    obtain ⟨ts2, h2, l2⟩ := hfull 2
    have hne1 : ts1 ≠ [] := by intro h; rw [h] at l1; simp at l1
    have hne2 : ts2 ≠ [] := by intro h; rw [h] at l2; simp at l2
    have hns1 : ¬ts1.length < 100 := by omega
    have hns2 : ¬ts2.length < 100 := by omega
    rw [get_all_token_traders, tradersLoop]
    simp only [dif_pos (show (1 : ℕ) ≤ 2 by norm_num), h1, if_neg hne1, if_neg hns1]
    rw [show (1 : ℕ) + 1 = 2 from rfl, tradersLoop]
    simp only [dif_pos (show (2 : ℕ) ≤ 2 by norm_num), h2, if_neg hne2, if_neg hns2]
    rw [show (2 : ℕ) + 1 = 3 from rfl, tradersLoop]
    simp only [dif_neg (show ¬(3 : ℕ) ≤ 2 by norm_num)]
  · intro env t ft tt ts1 ts2 ts3 h1 l1 h2 l2 h3 hne3 hsh3
    have hne1 : ts1 ≠ [] := by intro h; rw [h] at l1; simp at l1
    have hne2 : ts2 ≠ [] := by intro h; rw [h] at l2; simp at l2
    have hns1 : ¬ts1.length < 100 := by omega
    have hns2 : ¬ts2.length < 100 := by omega
    rw [get_all_token_traders, tradersLoop]
    simp only [dif_pos (show (1 : ℕ) ≤ 50 by norm_num), h1, if_neg hne1, if_neg hns1]
    rw [show (1 : ℕ) + 1 = 2 from rfl, tradersLoop]
    simp only [dif_pos (show (2 : ℕ) ≤ 50 by norm_num), h2, if_neg hne2, if_neg hns2]
    rw [show (2 : ℕ) + 1 = 3 from rfl, tradersLoop]
    simp only [dif_pos (show (3 : ℕ) ≤ 50 by norm_num), h3, if_neg hne3, if_pos hsh3]

/-- C6 witness: the termination bounds instantiated on concrete providers:
the always-failing holder provider fetches exactly offset 0; the all-full
transfer provider with ceiling 2 fetches exactly pages 1 and 2; the
short-third-page provider fetches exactly pages 1, 2, 3. -/
theorem pagination_terminates_at_stop_conditions_witness :
    (∃ o, FetchEvent.holders "a" 100 0 = FetchEvent.holders "a" 100 o ∧ o < 1000 ∧
      o % 100 = 0) ∧
    (0 : Nat) ≤ 0 ∧
    (1 ≤ (1 : Nat) ∧ (1 : Nat) ≤ 2) ∧
    (get_all_token_traders envSolFull "t" none none 2).2 = [1, 2] ∧
    (get_all_token_traders envSolShort3 "t" none none 50).2 = [1, 2, 3] := by
  have hfl : (fetchHoldersLoop envErr "a" 1000 0 []).2 = [FetchEvent.holders "a" 100 0] := by
    rw [fetchHoldersLoop]
    simp [envErr]
  have hmem : FetchEvent.holders "a" 100 0 ∈ (fetchHoldersLoop envErr "a" 1000 0 []).2 := by
    rw [hfl]
    exact List.mem_singleton.mpr rfl
  have hfull : ∀ p, ∃ ts, envSolFull.getTokenTransfers "t" p 100 none none = .ok ts ∧
      ts.length = 100 :=
    fun _ => ⟨transferPageFull, rfl, by simp [transferPageFull]⟩
  have htr2 : (get_all_token_traders envSolFull "t" none none 2).2 = [1, 2] :=
    pagination_terminates_at_stop_conditions.2.2.2.1 envSolFull "t" none none hfull
  refine ⟨?_, ?_, ?_, htr2, ?_⟩
  · exact pagination_terminates_at_stop_conditions.1 envErr "a" 1000 _ hmem
  · exact pagination_terminates_at_stop_conditions.2.1 envErr "a" 1000 0 0 hmem
      (Or.inl ⟨"API request failed: 500", rfl⟩) hmem
  · refine pagination_terminates_at_stop_conditions.2.2.1 envSolFull "t" none none 2 1 ?_
    rw [htr2]
    exact List.mem_cons_self _ _
  · exact pagination_terminates_at_stop_conditions.2.2.2.2 envSolShort3 "t" none none
      transferPageFull transferPageFull [⟨some "carol", some "dave"⟩]
      rfl (by simp [transferPageFull]) rfl (by simp [transferPageFull]) rfl
      (by simp) (by simp)

/-! ## Claim C7 -/

/-- C7: the burn/system address literal is never a member of a returned
trader set, even when it occurs as a transfer endpoint; and every other
non-empty sender or receiver address of every transfer of every
successfully fetched page is a member. -/
theorem burn_address_never_in_trader_set (env : SolscanEnv) (t : String)
    (ft tt : Option Int) (maxP : Nat) :
    burnAddress ∉ (get_all_token_traders env t ft tt maxP).1 ∧
    (∀ p ∈ (get_all_token_traders env t ft tt maxP).2, ∀ ts,
      env.getTokenTransfers t p 100 ft tt = .ok ts → ∀ tr ∈ ts, ∀ x : String,
        (tr.from_address = some x ∨ tr.to_address = some x) → x ≠ "" →
        x ≠ burnAddress → x ∈ (get_all_token_traders env t ft tt maxP).1) := by
  constructor
  · intro hmem
    rw [get_all_token_traders, mem_tradersLoop] at hmem
    rcases hmem with h | ⟨p, _, ts, _, tr, _, _, _, hnb⟩
    · exact absurd h (List.not_mem_nil _)
    · exact hnb rfl
  · intro p hp ts hts tr htr x hcond hne hnb
    rw [get_all_token_traders, mem_tradersLoop]
    exact Or.inr ⟨p, hp, ts, hts, tr, htr, hcond, hne, hnb⟩

/-- C7 witness: on a provider whose only transfer page names the burn
address as both a sender and a receiver, the burn address is not in the
trader set while the ordinary endpoint "alice" is. -/
theorem burn_address_never_in_trader_set_witness :
    burnAddress ∉ (get_all_token_traders envSolBurn "t" none none 50).1 ∧
    "alice" ∈ (get_all_token_traders envSolBurn "t" none none 50).1 := by
  have hp : (1 : ℕ) ∈ (get_all_token_traders envSolBurn "t" none none 50).2 := by
    rw [get_all_token_traders, tradersLoop]
    simp [envSolBurn]
  exact ⟨(burn_address_never_in_trader_set envSolBurn "t" none none 50).1,
    (burn_address_never_in_trader_set envSolBurn "t" none none 50).2 1 hp
      [⟨some "alice", some burnAddress⟩, ⟨some burnAddress, some "bob"⟩] rfl
      ⟨some "alice", some burnAddress⟩ (List.mem_cons_self _ _) "alice"
      (Or.inl rfl) (by decide) (by decide)⟩

/-! ## Claim C8 -/

/-- C8 (refuted — code bug): in `get_token_transfers` the `from_time` bound
is sent under the provider's time-range array parameter name
`block_time[]`, but the `to_time` bound is sent under the distinct,
malformed key `block_time[]=` (a stray trailing equals sign baked into the
parameter name at solscan.py line 146), so the two bounds are NOT both sent
under the provider's time-range parameter name.  Evaluated at the concrete
failing input `from_time = 1000`, `to_time = 2000`. -/
theorem to_time_sent_under_malformed_key :
    ((get_token_transfers_params "tok" 1 100 (some 1000) (some 2000) "block_time"
        "desc").filter (fun p => decide (p.1 = "block_time[]"))) =
      [("block_time[]", ParamValue.int 1000)] ∧
    ((get_token_transfers_params "tok" 1 100 (some 1000) (some 2000) "block_time"
        "desc").filter (fun p => decide (p.1 = "block_time[]="))) =
      [("block_time[]=", ParamValue.int 2000)] := by
  constructor <;> rfl

end Soylana
